import Mathlib

/-!
Shallow embedding of the fast-modbus-python-tools protocol engine
(`scripts/fast-modbus-client.py`, `fast-modbus-scanner.py`,
`fast-modbus-events.py`, `fast-modbus-config-events.py`) together with
theorems settling the specification claims about it.

Byte sequences are modelled as `List Nat`; machine bytes are the values
below 256 and 16-bit words the values below 65536, with explicit bounds
where they matter.  Fallible parsing is modelled with `Option`/`Except`.
-/

/-- One shift step of the Modbus CRC16 loop:
`crc = (crc >> 1) ^ 0xA001 if crc & 1 else crc >> 1`. -/
def crcStep (crc : Nat) : Nat :=
  if crc % 2 = 1 then (crc / 2) ^^^ 0xA001 else crc / 2

/-- Processing of one input byte inside `calculate_crc`: XOR the byte into the
running value, then perform eight shift steps (`for _ in range(8)`). -/
def crcByte (crc byte : Nat) : Nat :=
  crcStep^[8] (crc ^^^ byte)

/-- The scripts' `calculate_crc`: seed `0xFFFF`, fold every data byte. -/
def calculate_crc (data : List Nat) : Nat :=
  data.foldl crcByte 0xFFFF

/-- Little-endian u16 read of the first two entries of a byte list, as done by
`struct.unpack('<H', response[-2:])` once the last two bytes are isolated. -/
def le16 (l : List Nat) : Nat := l.getD 0 0 + 256 * l.getD 1 0

/-- The scripts' `check_crc`: a response passes iff it has length at least 3
and the little-endian u16 formed by its last two bytes equals the CRC16 of
everything before them (`response[:-2]`). -/
def check_crc (response : List Nat) : Bool :=
  decide (3 ≤ response.length) &&
    le16 (response.drop (response.length - 2)) ==
      calculate_crc (response.take (response.length - 2))

/-- Little-endian u16 encoding `struct.pack('<H', v)` of a CRC value. -/
def le16e (v : Nat) : List Nat := [v % 256, v / 256]

/-- The scripts' `send_command` payload framing: the bytes actually written are
the command followed by its CRC16 in little-endian order. -/
def send_command (command : List Nat) : List Nat :=
  command ++ le16e (calculate_crc command)

/-- Any byte list of length at least two splits off its final two entries. -/
theorem exists_append_two (r : List Nat) (h : 2 ≤ r.length) :
    ∃ l x y, r = l ++ [x, y] := by
  rcases List.eq_nil_or_concat r with rfl | ⟨l1, y, rfl⟩
  · simp at h
  · rcases List.eq_nil_or_concat l1 with rfl | ⟨l2, x, rfl⟩
    · simp [List.concat] at h
    · exact ⟨l2, x, y, by simp⟩

/-- Evaluation of `check_crc` on a list with its last two entries split off. -/
theorem check_crc_append_two (b : List Nat) (lo hi : Nat) :
    check_crc (b ++ [lo, hi]) =
      (decide (3 ≤ b.length + 2) && (lo + 256 * hi == calculate_crc b)) := by
  have hlen : (b ++ [lo, hi]).length = b.length + 2 := by simp
  have hdrop : (b ++ [lo, hi]).drop b.length = [lo, hi] := List.drop_left b [lo, hi]
  have htake : (b ++ [lo, hi]).take b.length = b := List.take_left b [lo, hi]
  simp only [check_crc, hlen, Nat.add_sub_cancel, hdrop, htake, le16]
  simp [List.getD]

/-- C1: `check_crc r` is true exactly when `r` splits as a nonempty body
followed by two trailing bytes whose little-endian value is the CRC16 of the
body; any `r` shorter than 3 bytes is rejected outright. -/
theorem check_crc_characterisation (r : List Nat) :
    (check_crc r = true ↔
      ∃ b lo hi, r = b ++ [lo, hi] ∧ 1 ≤ b.length ∧
        lo + 256 * hi = calculate_crc b) ∧
    (r.length < 3 → check_crc r = false) := by
  constructor
  · constructor
    · intro h
      have hlen : 3 ≤ r.length := by
        by_contra hc
        simp only [check_crc, decide_eq_true_eq] at h
        rw [Bool.and_eq_true, decide_eq_true_eq] at h
        exact hc h.1
      obtain ⟨l, x, y, rfl⟩ := exists_append_two r (by omega)
      rw [check_crc_append_two, Bool.and_eq_true, beq_iff_eq] at h
      refine ⟨l, x, y, rfl, ?_, h.2⟩
      have : 3 ≤ l.length + 2 := by simpa using hlen
      omega
    · rintro ⟨b, lo, hi, rfl, hb, h⟩
      rw [check_crc_append_two]
      have h1 : decide (3 ≤ b.length + 2) = true := by
        simp only [decide_eq_true_eq]; omega
      have h2 : (lo + 256 * hi == calculate_crc b) = true := by
        simpa using h
      rw [h1, h2]; rfl
  · intro h
    simp only [check_crc]
    have : decide (3 ≤ r.length) = false := by
      simp only [decide_eq_false_iff_not]; omega
    rw [this, Bool.false_and]

/-- Concrete instance of the `check_crc` characterisation: a 2-byte buffer is
rejected, and a frame carrying the true CRC16 of its 1-byte body passes. -/
theorem check_crc_characterisation_witness :
    check_crc [1, 2] = false ∧ check_crc [1, 126, 128] = true := by
  refine ⟨(check_crc_characterisation [1, 2]).2 (by decide), ?_⟩
  exact (check_crc_characterisation [1, 126, 128]).1.mpr
    ⟨[1], 126, 128, rfl, by decide, by decide⟩

/-- XOR of two 16-bit values stays inside 16 bits. -/
theorem xor_lt_65536 {a b : Nat} (ha : a < 65536) (hb : b < 65536) :
    a ^^^ b < 65536 := by
  have h := Nat.xor_lt_two_pow (n := 16) (x := a) (y := b)
  norm_num at h
  exact h ha hb

/-- The shift step keeps the running CRC value inside 16 bits. -/
theorem crcStep_lt {a : Nat} (h : a < 65536) : crcStep a < 65536 := by
  have h2 : a / 2 < 65536 := lt_of_le_of_lt (Nat.div_le_self a 2) h
  unfold crcStep
  split
  · exact xor_lt_65536 h2 (by norm_num)
  · exact h2

/-- Bit 15 of the stepped CRC value records the parity of the input value. -/
theorem crcStep_testBit {a : Nat} (h : a < 65536) :
    (crcStep a).testBit 15 = decide (a % 2 = 1) := by
  have hdiv : a / 2 < 2 ^ 15 := by
    have h32 : a / 2 < 32768 := by omega
    calc a / 2 < 32768 := h32
    _ = 2 ^ 15 := by norm_num
  have hfalse : (a / 2).testBit 15 = false := Nat.testBit_lt_two_pow hdiv
  unfold crcStep
  split
  · rename_i hpar
    rw [Nat.testBit_xor, hfalse, decide_eq_true hpar]
    decide
  · rename_i hpar
    rw [hfalse, decide_eq_false hpar]

/-- The shift step is injective on 16-bit CRC values. -/
theorem crcStep_inj {a b : Nat} (ha : a < 65536) (hb : b < 65536)
    (h : crcStep a = crcStep b) : a = b := by
  have hbit : decide (a % 2 = 1) = decide (b % 2 = 1) := by
    rw [← crcStep_testBit ha, ← crcStep_testBit hb, h]
  by_cases hpa : a % 2 = 1
  · have hpb : b % 2 = 1 := by
      by_contra hc
      rw [decide_eq_true hpa, decide_eq_false hc] at hbit
      exact Bool.noConfusion hbit
    have h2 : a / 2 ^^^ 0xA001 = b / 2 ^^^ 0xA001 := by
      simpa [crcStep, hpa, hpb] using h
    have h3 : a / 2 = b / 2 := Nat.xor_left_injective h2
    omega
  · have hpb : ¬ b % 2 = 1 := by
      intro hc
      rw [decide_eq_false hpa, decide_eq_true hc] at hbit
      exact Bool.noConfusion hbit
    have h3 : a / 2 = b / 2 := by simpa [crcStep, hpa, hpb] using h
    omega

/-- Iterating the shift step keeps 16-bit values 16-bit. -/
theorem iterStep_lt : ∀ (n : Nat) {a : Nat}, a < 65536 → crcStep^[n] a < 65536
  | 0, _, h => h
  | n + 1, a, h => by
    rw [Function.iterate_succ_apply]
    exact iterStep_lt n (crcStep_lt h)

/-- Iterating the shift step is injective on 16-bit values. -/
theorem iterStep_inj : ∀ (n : Nat) {a b : Nat}, a < 65536 → b < 65536 →
    crcStep^[n] a = crcStep^[n] b → a = b
  | 0, _, _, _, _, h => h
  | n + 1, a, b, ha, hb, h => by
    rw [Function.iterate_succ_apply, Function.iterate_succ_apply] at h
    exact crcStep_inj ha hb (iterStep_inj n (crcStep_lt ha) (crcStep_lt hb) h)

/-- The per-byte CRC update keeps 16-bit values 16-bit. -/
theorem crcByte_lt {s x : Nat} (hs : s < 65536) (hx : x < 65536) :
    crcByte s x < 65536 :=
  iterStep_lt 8 (xor_lt_65536 hs hx)

/-- The per-byte CRC update is injective in the running state. -/
theorem crcByte_state_inj {s t x : Nat} (hs : s < 65536) (ht : t < 65536)
    (hx : x < 65536) (hne : s ≠ t) : crcByte s x ≠ crcByte t x := by
  intro h
  have h2 : s ^^^ x = t ^^^ x :=
    iterStep_inj 8 (xor_lt_65536 hs hx) (xor_lt_65536 ht hx) h
  exact hne (Nat.xor_left_injective h2)

/-- The per-byte CRC update is injective in the input byte. -/
theorem crcByte_byte_inj {s x y : Nat} (hs : s < 65536) (hx : x < 65536)
    (hy : y < 65536) (hne : x ≠ y) : crcByte s x ≠ crcByte s y := by
  intro h
  have h2 : s ^^^ x = s ^^^ y :=
    iterStep_inj 8 (xor_lt_65536 hs hx) (xor_lt_65536 hs hy) h
  exact hne (Nat.xor_right_injective h2)

/-- Folding the CRC update over 16-bit bytes keeps the state 16-bit. -/
theorem crcFold_lt : ∀ (l : List Nat) (s : Nat), (∀ y ∈ l, y < 65536) →
    s < 65536 → l.foldl crcByte s < 65536
  | [], _, _, hs => hs
  | y :: l, s, hl, hs => by
    simp only [List.foldl_cons]
    exact crcFold_lt l _ (fun z hz => hl z (List.mem_cons_of_mem _ hz))
      (crcByte_lt hs (hl y (List.mem_cons_self _ _)))

/-- Folding the CRC update over a common byte list preserves distinctness of
16-bit states. -/
theorem crcFold_inj : ∀ (l : List Nat) (s t : Nat), (∀ y ∈ l, y < 65536) →
    s < 65536 → t < 65536 → s ≠ t →
    l.foldl crcByte s ≠ l.foldl crcByte t
  | [], _, _, _, _, _, hne => hne
  | y :: l, s, t, hl, hs, ht, hne => by
    simp only [List.foldl_cons]
    have hy : y < 65536 := hl y (List.mem_cons_self _ _)
    exact crcFold_inj l _ _ (fun z hz => hl z (List.mem_cons_of_mem _ hz))
      (crcByte_lt hs hy) (crcByte_lt ht hy)
      (crcByte_state_inj hs ht hy hne)

/-- Reassembly of a list from its prefix, element `i` and suffix. -/
theorem take_getD_drop : ∀ (l : List Nat) (i : Nat), i < l.length →
    l.take i ++ l.getD i 0 :: l.drop (i + 1) = l
  | _ :: _, 0, _ => by simp
  | a :: l, i + 1, h => by
    simp only [List.take_succ_cons, List.drop_succ_cons, List.getD_cons_succ,
      List.cons_append, List.cons.injEq, true_and]
    exact take_getD_drop l i (by simpa using h)

/-- Changing one 16-bit byte of a 16-bit byte list changes its CRC16. -/
theorem calculate_crc_set_ne (l : List Nat) (i v : Nat)
    (hl : ∀ y ∈ l, y < 65536) (hi : i < l.length) (hv : v < 65536)
    (hne : v ≠ l.getD i 0) :
    calculate_crc (l.set i v) ≠ calculate_crc l := by
  have hset : l.set i v = l.take i ++ v :: l.drop (i + 1) :=
    List.set_eq_take_cons_drop v hi
  have horig : l.take i ++ l.getD i 0 :: l.drop (i + 1) = l := take_getD_drop l i hi
  rw [hset]
  conv_rhs => rw [← horig]
  unfold calculate_crc
  rw [List.foldl_append, List.foldl_append]
  simp only [List.foldl_cons]
  have hbytes_take : ∀ y ∈ l.take i, y < 65536 :=
    fun y hy => hl y (List.mem_of_mem_take hy)
  have hbytes_drop : ∀ y ∈ l.drop (i + 1), y < 65536 :=
    fun y hy => hl y (List.mem_of_mem_drop hy)
  have hS : (l.take i).foldl crcByte 0xFFFF < 65536 :=
    crcFold_lt _ _ hbytes_take (by norm_num)
  have hgd : l.getD i 0 ∈ l := by
    have hmem := List.getElem_mem (l := l) (h := hi)
    have : l.getD i 0 = l[i] := by
      simp [List.getD_eq_getElem?_getD, List.getElem?_eq_getElem hi]
    rw [this]
    exact hmem
  have hgd_lt : l.getD i 0 < 65536 := hl _ hgd
  exact crcFold_inj _ _ _ hbytes_drop (crcByte_lt hS hv) (crcByte_lt hS hgd_lt)
    (crcByte_byte_inj hS hv hgd_lt hne)

/-- Element `i` of a list read with a default is a member when in range. -/
theorem getD_mem {l : List Nat} {i : Nat} (h : i < l.length) : l.getD i 0 ∈ l := by
  have heq : l.getD i 0 = l[i] := by
    simp [List.getD_eq_getElem?_getD, List.getElem?_eq_getElem h]
  rw [heq]
  exact List.getElem_mem h

/-- Reading with a default before an append stays in the left part. -/
theorem getD_append_left {l₁ l₂ : List Nat} {i : Nat} (h : i < l₁.length)
    (d : Nat) : (l₁ ++ l₂).getD i d = l₁.getD i d := by
  simp [List.getD_eq_getElem?_getD, List.getElem?_append_left h]

/-- Reading with a default past an append lands in the right part. -/
theorem getD_append_right {l₁ l₂ : List Nat} {i : Nat} (h : l₁.length ≤ i)
    (d : Nat) : (l₁ ++ l₂).getD i d = l₂.getD (i - l₁.length) d := by
  simp [List.getD_eq_getElem?_getD, List.getElem?_append_right h]

/-- Flip of bit `j` of a byte value. -/
def flipBit (x j : Nat) : Nat := x ^^^ 2 ^ j

/-- The frame with bit `j` of its byte `i` flipped. -/
def flipAt (f : List Nat) (i j : Nat) : List Nat :=
  f.set i (flipBit (f.getD i 0) j)

/-- Flipping a bit never fixes the value. -/
theorem flipBit_ne (x j : Nat) : flipBit x j ≠ x := by
  intro h
  have h0 : x ^^^ 2 ^ j = x ^^^ 0 := by rw [Nat.xor_zero]; exact h
  have h1 : 2 ^ j = 0 := Nat.xor_right_injective h0
  exact (Nat.pow_pos (by norm_num : 0 < 2) (n := j)).ne' h1

/-- Flipping one of the low eight bits keeps a byte below 256. -/
theorem flipBit_lt {x j : Nat} (hx : x < 256) (hj : j < 8) : flipBit x j < 256 := by
  have h := Nat.xor_lt_two_pow (n := 8) (x := x) (y := 2 ^ j)
  norm_num at h
  refine h hx ?_
  calc 2 ^ j < 2 ^ 8 := Nat.pow_lt_pow_right (by norm_num) hj
  _ = 256 := by norm_num

/-- C2 counterexample: for the empty payload the encoded frame is just the two
CRC bytes, and `check_crc` rejects it because its length is below 3, so the
round-trip claim fails at `b = []`. -/
theorem send_command_empty_rejected : check_crc (send_command []) = false := by
  decide

/-- C2 (amended): appending the little-endian CRC16 to a nonempty byte payload
yields a frame accepted by `check_crc`, and flipping any single bit of an
encoded frame over any byte payload (empty included) yields a frame rejected
by `check_crc`. -/
theorem send_command_roundtrip_and_bitflip (b : List Nat)
    (hb : ∀ x ∈ b, x < 256) :
    (b ≠ [] → check_crc (send_command b) = true) ∧
    (∀ i j, i < (send_command b).length → j < 8 →
      check_crc (flipAt (send_command b) i j) = false) := by
  have hframe : send_command b =
      b ++ [calculate_crc b % 256, calculate_crc b / 256] := rfl
  constructor
  · intro hne
    rw [hframe, check_crc_append_two]
    have h1 : decide (3 ≤ b.length + 2) = true := by
      have : b.length ≠ 0 := fun h => hne (List.eq_nil_of_length_eq_zero h)
      simp only [decide_eq_true_eq]; omega
    have h2 : (calculate_crc b % 256 + 256 * (calculate_crc b / 256)
        == calculate_crc b) = true := by
      rw [beq_iff_eq]
      exact Nat.mod_add_div _ _
    rw [h1, h2]; rfl
  · intro i j hi hj
    by_cases hbn : b = []
    · subst hbn
      apply (check_crc_characterisation _).2
      have : (flipAt (send_command []) i j).length = 2 := by
        simp [flipAt, send_command, le16e]
      omega
    · have hblen : 1 ≤ b.length := by
        cases b with
        | nil => exact absurd rfl hbn
        | cons a l => simp
      have hlen : (send_command b).length = b.length + 2 := by
        simp [send_command, le16e]
      by_cases hib : i < b.length
      · -- a payload byte is flipped: the recomputed CRC changes
        have hget : (send_command b).getD i 0 = b.getD i 0 := by
          rw [hframe]; exact getD_append_left hib 0
        have hsets : flipAt (send_command b) i j =
            b.set i (flipBit (b.getD i 0) j) ++
              [calculate_crc b % 256, calculate_crc b / 256] := by
          rw [flipAt, hget, hframe, List.set_append_left _ _ hib]
        have hcrcne : calculate_crc (b.set i (flipBit (b.getD i 0) j)) ≠
            calculate_crc b := by
          refine calculate_crc_set_ne b i _ ?_ hib ?_ (flipBit_ne _ j)
          · exact fun y hy => lt_trans (hb y hy) (by norm_num)
          · exact lt_trans (flipBit_lt (hb _ (getD_mem hib)) hj) (by norm_num)
        rw [hsets, check_crc_append_two, Nat.mod_add_div]
        have hbeq : (calculate_crc b ==
            calculate_crc (b.set i (flipBit (b.getD i 0) j))) = false :=
          beq_eq_false_iff_ne.mpr (Ne.symm hcrcne)
        rw [hbeq, Bool.and_false]
      · -- one of the two stored CRC bytes is flipped: the stored value changes
        have hcase : i = b.length ∨ i = b.length + 1 := by
          rw [hlen] at hi; omega
        rcases hcase with hieq | hieq
        · subst hieq
          have hget : (send_command b).getD b.length 0 =
              calculate_crc b % 256 := by
            rw [hframe, getD_append_right (le_refl _)]
            simp
          have hsets : flipAt (send_command b) b.length j =
              b ++ [flipBit (calculate_crc b % 256) j,
                calculate_crc b / 256] := by
            rw [flipAt, hget, hframe, List.set_append_right _ _ (le_refl _)]
            simp
          rw [hsets, check_crc_append_two]
          have hbeq : (flipBit (calculate_crc b % 256) j +
              256 * (calculate_crc b / 256) == calculate_crc b) = false := by
            rw [beq_eq_false_iff_ne]
            intro h
            have hnefix := flipBit_ne (calculate_crc b % 256) j
            omega
          rw [hbeq, Bool.and_false]
        · subst hieq
          have hget : (send_command b).getD (b.length + 1) 0 =
              calculate_crc b / 256 := by
            rw [hframe, getD_append_right (by omega)]
            simp
          have hsets : flipAt (send_command b) (b.length + 1) j =
              b ++ [calculate_crc b % 256,
                flipBit (calculate_crc b / 256) j] := by
            rw [flipAt, hget, hframe, List.set_append_right _ _ (by omega)]
            simp
          rw [hsets, check_crc_append_two]
          have hbeq : (calculate_crc b % 256 +
              256 * flipBit (calculate_crc b / 256) j == calculate_crc b) =
              false := by
            rw [beq_eq_false_iff_ne]
            intro h
            have hnefix := flipBit_ne (calculate_crc b / 256) j
            omega
          rw [hbeq, Bool.and_false]

/-- Concrete instance of the amended CRC round-trip/bit-flip theorem at the
one-byte payload `[1]`. -/
theorem send_command_roundtrip_and_bitflip_witness :
    check_crc (send_command [1]) = true ∧
    check_crc (flipAt (send_command [1]) 0 0) = false := by
  refine ⟨(send_command_roundtrip_and_bitflip [1] (by decide)).1 (by decide), ?_⟩
  exact (send_command_roundtrip_and_bitflip [1] (by decide)).2 0 0
    (by decide) (by decide)

/-- Big-endian u16 read of the first two entries of a byte list, as done by
`struct.unpack('>H', ...)` on a two-byte slice. -/
def be16 (l : List Nat) : Nat := 256 * l.getD 0 0 + l.getD 1 0

/-- Big-endian u32 read of the first four entries of a byte list, as done by
`struct.unpack('>I', ...)` on a four-byte slice. -/
def be32 (l : List Nat) : Nat :=
  16777216 * l.getD 0 0 + 65536 * l.getD 1 0 + 256 * l.getD 2 0 + l.getD 3 0

/-- Outcome of the events script's `parse_event_response`. -/
inductive EventParseResult where
  | noEvents : EventParseResult
  | tooShort : EventParseResult
  | parsed (device_id cmd subcmd flag event_count event_data_len
      event_type event_payload : Nat) : EventParseResult
  deriving DecidableEq

/-- The events script's `parse_event_response`: buffers shorter than 7 bytes
mean no events, buffers shorter than 12 bytes are an error, and otherwise the
header is read (event count at offset 4, big-endian data length at 5..6)
followed by the first event only — `event_type` from bytes 7..8 and one
further big-endian u16 from bytes 9..10, which the script prints as both the
event id and the payload. -/
def parse_event_response (r : List Nat) : EventParseResult :=
  if r.length < 7 then .noEvents
  else if r.length < 12 then .tooShort
  else .parsed (r.getD 0 0) (r.getD 1 0) (r.getD 2 0) (r.getD 3 0)
    (r.getD 4 0) (be16 ((r.drop 5).take 2)) (be16 ((r.drop 7).take 2))
    (be16 ((r.drop 9).take 2))

/-- Event record shape named by the specification. -/
structure EventRecord where
  event_type : Nat
  event_id : Nat
  payload : Nat
  deriving DecidableEq

/-- Modelled from the spec: the claimed event-poll decoder returning
`event_count` ordered records, the i-th read as three consecutive big-endian
u16 fields starting at offset `7 + 6*i`. -/
def claimEventRecords (r : List Nat) : List EventRecord :=
  (List.range (r.getD 4 0)).map fun i =>
    ⟨be16 ((r.drop (7 + 6 * i)).take 2), be16 ((r.drop (9 + 6 * i)).take 2),
      be16 ((r.drop (11 + 6 * i)).take 2)⟩

/-- C3: on a response declaring `event_count = 2` with two full six-byte event
records present, the script's parser exposes only the first event's type and
the single u16 after it, whereas the claimed decoder yields two three-field
records; the short-length outcomes behave as claimed. -/
theorem parse_event_response_reads_first_event_only :
    parse_event_response
      [10, 70, 18, 1, 2, 0, 12, 0, 1, 0, 2, 0, 3, 0, 4, 0, 5, 0, 6] =
      .parsed 10 70 18 1 2 12 1 2 ∧
    claimEventRecords
      [10, 70, 18, 1, 2, 0, 12, 0, 1, 0, 2, 0, 3, 0, 4, 0, 5, 0, 6] =
      [⟨1, 2, 3⟩, ⟨4, 5, 6⟩] ∧
    parse_event_response [1, 2, 3, 4, 5] = .noEvents ∧
    parse_event_response [1, 2, 3, 4, 5, 6, 7, 8] = .tooShort := by
  refine ⟨by decide, by decide, by decide, by decide⟩

/-- Removal of leading 0xFF idle-fill bytes: `bytes.lstrip(b'\xFF')`. -/
def stripFF : List Nat → List Nat
  | [] => []
  | x :: xs => if x = 0xFF then stripFF xs else x :: xs

/-- Device record collected by `scan_devices`: serial number and bus id. The
model string obtained by the intervening `request_device_model` exchange is a
separate serial-port transaction and is not modelled in the record. -/
structure DeviceRec where
  serial_number : Nat
  modbus_id : Nat
  deriving DecidableEq

/-- Continue-scan frame sent once per discovered device:
`send_command(serial_port, struct.pack('BBB', 0xFD, scan_command, 0x02))`. -/
def continueFrame (scanCmd : Nat) : List Nat :=
  send_command [0xFD, scanCmd, 0x02]

/-- Receive loop of the scanner's `scan_devices`, driven by the successive
buffers returned by `serial_port.read`: an empty read breaks the loop; a
stripped response of length at least 10 with byte 0x03 at offset 2 appends a
device record (big-endian u32 serial from offsets 3..6, bus id from offset 7)
and sends one continue-scan frame; a stripped response with byte 0x04 at
offset 2 ends the scan; any other response with at least three stripped bytes
matches neither branch and the loop simply continues; a nonempty response
with fewer than three stripped bytes makes `response[2]` raise an uncaught
IndexError, modelled as `none`. An exhausted list is the read timeout that
ends the loop. The result pairs the collected device records with the list of
continue-scan frames sent. -/
def scanLoop (scanCmd : Nat) : List (List Nat) →
    Option (List DeviceRec × List (List Nat))
  | [] => some ([], [])
  | r :: rest =>
    if r = [] then some ([], [])
    else
      let s := stripFF r
      if 10 ≤ s.length ∧ s.getD 2 0 = 0x03 then
        match scanLoop scanCmd rest with
        | none => none
        | some (ds, cs) =>
          some (⟨be32 ((s.drop 3).take 4), s.getD 7 0⟩ :: ds,
            continueFrame scanCmd :: cs)
      else if s.length < 3 then none
      else if s.getD 2 0 = 0x04 then some ([], [])
      else scanLoop scanCmd rest

/-- C4: when the bus answers with well-formed device-found frames carrying
distinct serials and then one scan-complete frame, the scan terminates with
exactly those device records in discovery order — serial read as big-endian
u32 from offsets 3..6 of the stripped frame, bus id from offset 7 — and sends
exactly one continue-scan frame per found device. -/
theorem scanLoop_collects_all_devices (scanCmd : Nat)
    (devs : List (List Nat)) (comp : List Nat)
    (hdev : ∀ r ∈ devs,
      10 ≤ (stripFF r).length ∧ (stripFF r).getD 2 0 = 0x03)
    (hdist : (devs.map fun r => be32 (((stripFF r).drop 3).take 4)).Nodup)
    (hclen : 3 ≤ (stripFF comp).length)
    (hcdisc : (stripFF comp).getD 2 0 = 0x04) :
    scanLoop scanCmd (devs ++ [comp]) =
      some (devs.map fun r =>
          ⟨be32 (((stripFF r).drop 3).take 4), (stripFF r).getD 7 0⟩,
        List.replicate devs.length (continueFrame scanCmd)) := by
  induction devs with
  | nil =>
    have hcne : comp ≠ [] := by
      intro h
      rw [h] at hclen
      simp [stripFF] at hclen
    simp only [List.nil_append, List.map_nil, List.length_nil,
      List.replicate_zero, scanLoop, if_neg hcne]
    have h1 : ¬(10 ≤ (stripFF comp).length ∧ (stripFF comp).getD 2 0 = 0x03) := by
      rintro ⟨-, h3⟩
      rw [hcdisc] at h3
      exact absurd h3 (by norm_num)
    rw [if_neg h1, if_neg (by omega), if_pos hcdisc]
  | cons d ds ih =>
    have hd := hdev d (List.mem_cons_self _ _)
    have hdne : d ≠ [] := by
      intro h
      rw [h] at hd
      simp [stripFF] at hd
    have hrec := ih (fun r hr => hdev r (List.mem_cons_of_mem _ hr))
      ((List.nodup_cons.mp (by simpa using hdist)).2)
    simp only [List.cons_append, scanLoop, if_neg hdne, if_pos hd,
      List.append_eq, hrec, List.map_cons, List.length_cons,
      List.replicate_succ]

/-- Concrete instance of the scan-collection theorem: one device-found frame
followed by a scan-complete frame yields that one device and one
continue-scan frame. -/
theorem scanLoop_collects_all_devices_witness :
    scanLoop 0x46 [[253, 70, 3, 0, 0, 0, 5, 9, 0, 0], [253, 70, 4]] =
      some ([⟨5, 9⟩],
        List.replicate 1 (continueFrame 0x46)) := by
  have h := scanLoop_collects_all_devices 0x46
    [[253, 70, 3, 0, 0, 0, 5, 9, 0, 0]] [253, 70, 4]
    (by decide) (by decide) (by decide) (by decide)
  simpa [stripFF, be32] using h

/-- C5 counterexample: a malformed response — three stripped bytes with
discriminator 5 at offset 2 — does not stop the scan: the device-found frame
that follows it is still collected, so the result is a one-device list rather
than the empty partial list the claim predicts at the malformed point. -/
theorem scanLoop_malformed_does_not_abort :
    scanLoop 0x46
      [[1, 2, 5], [253, 70, 3, 0, 0, 0, 5, 9, 0, 0], [253, 70, 4]] =
      some ([⟨5, 9⟩], [continueFrame 0x46]) ∧
    some ([⟨5, 9⟩], [continueFrame 0x46]) ≠
      (some ([], []) : Option (List DeviceRec × List (List Nat))) := by
  exact ⟨by decide, by decide⟩

/-- C5 (amended): a response that strips to at least three bytes but matches
neither the device-found shape nor the scan-complete discriminator is simply
ignored — the loop continues with the remaining responses and appends no
record for it — while a nonempty response that strips to fewer than three
bytes raises an uncaught IndexError at `response[2]` (modelled as `none`),
losing the partial device list instead of returning it. -/
theorem scanLoop_malformed_behaviour (scanCmd : Nat) (r : List Nat)
    (rest : List (List Nat)) (hne : r ≠ []) :
    (3 ≤ (stripFF r).length →
      ¬(10 ≤ (stripFF r).length ∧ (stripFF r).getD 2 0 = 0x03) →
      (stripFF r).getD 2 0 ≠ 0x04 →
      scanLoop scanCmd (r :: rest) = scanLoop scanCmd rest) ∧
    ((stripFF r).length < 3 → scanLoop scanCmd (r :: rest) = none) := by
  constructor
  · intro hlen hnotdev hnotdone
    simp only [scanLoop, if_neg hne, if_neg hnotdev, if_neg (by omega :
      ¬ (stripFF r).length < 3), if_neg hnotdone]
  · intro hlen
    have hnotdev : ¬(10 ≤ (stripFF r).length ∧ (stripFF r).getD 2 0 = 0x03) := by
      rintro ⟨h10, -⟩
      omega
    simp only [scanLoop, if_neg hne, if_neg hnotdev, if_pos hlen]

/-- Concrete instance of the amended malformed-response behaviour: a
discriminator-5 response is skipped (scan continues and ends with the empty
result), and an all-0xFF response crashes the scan. -/
theorem scanLoop_malformed_behaviour_witness :
    scanLoop 70 [[1, 2, 5]] =
      (some ([], []) : Option (List DeviceRec × List (List Nat))) ∧
    scanLoop 70 [[255]] = none := by
  constructor
  · have h := (scanLoop_malformed_behaviour 70 [1, 2, 5] [] (by decide)).1
      (by decide) (by decide) (by decide)
    simpa using h
  · exact (scanLoop_malformed_behaviour 70 [255] [] (by decide)).2 (by decide)

/-- Big-endian u16 encoding `struct.pack('>H', v)` of an in-range value. -/
def be16e (v : Nat) : List Nat := [v / 256, v % 256]

/-- Big-endian u32 encoding `struct.pack('>I', v)` of an in-range value. -/
def be32e (v : Nat) : List Nat :=
  [v / 16777216, v / 65536 % 256, v / 256 % 256, v % 256]

/-- Pre-CRC request bytes built by the client's `write_registers`:
`struct.pack('>BBBIBHHB', 0xFD, 0x46, 0x08, serial_number, command, register,
register_count, register_count * 2)` followed by each value packed `'>H'`.
The register count is packed with format `H`, a two-byte big-endian u16,
while the byte length `register_count * 2` is packed with format `B`, a
single byte; `struct.pack` raises `struct.error` (modelled as `none`)
whenever a field exceeds its format's range — `I` for the serial, `B` for the
function code and the byte length (so whenever `2 * n > 255`), `H` for the
register, the count and each value. -/
def write_command (serial cmd register : Nat) (values : List Nat) :
    Option (List Nat) :=
  if serial < 4294967296 ∧ cmd < 256 ∧ register < 65536 ∧
      values.length < 65536 ∧ values.length * 2 < 256 ∧
      (∀ v ∈ values, v < 65536) then
    some ([0xFD, 0x46, 0x08] ++ be32e serial ++ [cmd] ++ be16e register ++
      be16e values.length ++ [values.length * 2] ++ (values.map be16e).flatten)
  else none

/-- Modelled from the spec: the claimed write-request layout, identical except
that the register count `n` is emitted as a single byte. -/
def claim_write_command (serial cmd register : Nat) (values : List Nat) :
    List Nat :=
  [0xFD, 0x46, 0x08] ++ be32e serial ++ [cmd] ++ be16e register ++
    [values.length] ++ [values.length * 2] ++ (values.map be16e).flatten

/-- Result reported by the client's `write_registers` after sending: `none`
models the read timeout, `some r` the received buffer; success is exactly
`check_crc` on the buffer, with no further payload interpretation. -/
def write_registers_result (resp : Option (List Nat)) : Bool :=
  match resp with
  | none => false
  | some r => check_crc r

/-- C6 counterexample: at serial 1, function 0x10, register 2 and the single
value 3, the request actually built (register count as big-endian u16)
differs from the claimed layout (register count as a single byte). -/
theorem write_command_count_is_u16 :
    write_command 1 0x10 2 [3] =
      some [0xFD, 0x46, 0x08, 0, 0, 0, 1, 0x10, 0, 2, 0, 1, 2, 0, 3] ∧
    write_command 1 0x10 2 [3] ≠ some (claim_write_command 1 0x10 2 [3]) := by
  exact ⟨by decide, by decide⟩

/-- The flattened big-endian u16 encodings occupy two bytes per value. -/
theorem flatten_be16e_length (values : List Nat) :
    (values.map be16e).flatten.length = 2 * values.length := by
  induction values with
  | nil => rfl
  | cons v vs ih =>
    simp only [List.map_cons, List.flatten_cons, List.length_append, ih, be16e]
    simp only [List.length_cons, List.length_nil, List.length_cons]
    omega

/-- Decoding the flattened big-endian u16 encodings at even offsets recovers
each encoded value. -/
theorem flatten_be16e_decode : ∀ (values : List Nat),
    (∀ v ∈ values, v < 65536) → ∀ i, i < values.length →
    be16 ((values.map be16e).flatten.drop (2 * i)) = values.getD i 0
  | [], _, i, h => by simp at h
  | v :: vs, hv, 0, _ => by
    have hvlt : v < 65536 := hv v (List.mem_cons_self _ _)
    simp only [List.map_cons, List.flatten_cons, Nat.mul_zero, List.drop_zero,
      be16e, List.cons_append, be16, List.getD_cons_zero, List.getD_cons_succ]
    omega
  | v :: vs, hv, i + 1, h => by
    have hrec := flatten_be16e_decode vs
      (fun w hw => hv w (List.mem_cons_of_mem _ hw)) i (by simpa using h)
    rw [show 2 * (i + 1) = 2 * i + 1 + 1 by ring]
    simp only [List.map_cons, List.flatten_cons, be16e, List.cons_append,
      List.drop_succ_cons, List.getD_cons_succ]
    exact hrec

/-- Dropping the left part of an append plus `k` drops `k` on the right. -/
theorem drop_append_len : ∀ (l₁ l₂ : List Nat) (k : Nat),
    (l₁ ++ l₂).drop (l₁.length + k) = l₂.drop k
  | [], l₂, k => by simp
  | a :: l₁, l₂, k => by
    have hlen : (a :: l₁).length + k = (l₁.length + k) + 1 := by
      simp only [List.length_cons]; omega
    rw [hlen, List.cons_append, List.drop_succ_cons]
    exact drop_append_len l₁ l₂ k

/-- C6 (amended): the build fails like `struct.pack` whenever the byte-length
field `2*n` exceeds one byte; every request it does build consists of the
three fixed bytes 0xFD 0x46 0x08, the serial as big-endian u32, the function
code byte, the register as big-endian u16, the register count as big-endian
u16 (not a single byte), the byte length `2*n` as one byte, and each value as
big-endian u16 — each field recoverable at its offset — and `write_registers`
reports success iff a response arrived within the timeout whose trailing CRC
validates, with no further interpretation of the payload. -/
theorem write_command_layout (serial cmd register : Nat) (values : List Nat) :
    (256 ≤ values.length * 2 →
      write_command serial cmd register values = none) ∧
    (∀ w, write_command serial cmd register values = some w →
      w.length = 13 + 2 * values.length ∧
      w.take 3 = [0xFD, 0x46, 0x08] ∧
      be32 (w.drop 3) = serial ∧
      w.getD 7 0 = cmd ∧
      be16 (w.drop 8) = register ∧
      be16 (w.drop 10) = values.length ∧
      w.getD 12 0 = values.length * 2 ∧
      (∀ i, i < values.length →
        be16 (w.drop (13 + 2 * i)) = values.getD i 0)) ∧
    (∀ o : Option (List Nat),
      write_registers_result o = true ↔
        ∃ r, o = some r ∧ check_crc r = true) := by
  refine ⟨?_, ?_, ?_⟩
  · intro hb
    have hcond : ¬(serial < 4294967296 ∧ cmd < 256 ∧ register < 65536 ∧
        values.length < 65536 ∧ values.length * 2 < 256 ∧
        ∀ v ∈ values, v < 65536) := by
      rintro ⟨-, -, -, -, hb2, -⟩
      omega
    rw [write_command, if_neg hcond]
  · intro w hw
    rw [write_command] at hw
    split at hw
    case isFalse => exact Option.noConfusion hw
    case isTrue hc =>
      obtain ⟨hs, hcmd, hr, hn, hb, hv⟩ := hc
      injection hw with hw2
      subst hw2
      refine ⟨?_, rfl, ?_, rfl, ?_, ?_, rfl, ?_⟩
      · simp only [List.length_append, flatten_be16e_length, be32e, be16e,
          List.length_cons, List.length_nil]
      · show be32 (be32e serial ++ ([cmd] ++ (be16e register ++
          (be16e values.length ++ ([values.length * 2] ++
            (values.map be16e).flatten))))) = serial
        simp only [be32e, be16e, List.cons_append, List.nil_append, be32,
          List.getD_cons_zero, List.getD_cons_succ]
        omega
      · show be16 (be16e register ++ (be16e values.length ++
          ([values.length * 2] ++ (values.map be16e).flatten))) = register
        simp only [be16e, List.cons_append, List.nil_append, be16,
          List.getD_cons_zero, List.getD_cons_succ]
        omega
      · show be16 (be16e values.length ++ ([values.length * 2] ++
          (values.map be16e).flatten)) = values.length
        simp only [be16e, List.cons_append, List.nil_append, be16,
          List.getD_cons_zero, List.getD_cons_succ]
        omega
      · intro i hi
        have hsplit : [0xFD, 0x46, 0x08] ++ be32e serial ++ [cmd] ++
            be16e register ++ be16e values.length ++ [values.length * 2] ++
            (values.map be16e).flatten =
            ([0xFD, 0x46, 0x08] ++ be32e serial ++ [cmd] ++ be16e register ++
              be16e values.length ++ [values.length * 2]) ++
              (values.map be16e).flatten := by
          simp [List.append_assoc]
        have hplen : ([0xFD, 0x46, 0x08] ++ be32e serial ++ [cmd] ++
            be16e register ++ be16e values.length ++
            [values.length * 2]).length = 13 := by
          simp [be32e, be16e]
        rw [hsplit, show (13 : Nat) + 2 * i =
          ([0xFD, 0x46, 0x08] ++ be32e serial ++ [cmd] ++ be16e register ++
            be16e values.length ++ [values.length * 2]).length + 2 * i by
            rw [hplen], drop_append_len]
        exact flatten_be16e_decode values hv i hi
  · intro o
    cases o with
    | none => simp [write_registers_result]
    | some r =>
      simp only [write_registers_result]
      constructor
      · intro h
        exact ⟨r, rfl, h⟩
      · rintro ⟨r2, heq, h⟩
        injection heq with heq2
        rw [heq2]
        exact h

set_option maxRecDepth 4000 in
/-- Concrete instance of the amended write-request behaviour: 128 registers
make the byte-length field overflow its single byte and the build fail, while
the one-value request at serial 1, function 0x10, register 2 has its count,
byte length and value recoverable at their offsets. -/
theorem write_command_layout_witness :
    write_command 1 0x10 2 (List.replicate 128 0) = none ∧
    be16 (([0xFD, 0x46, 0x08, 0, 0, 0, 1, 0x10, 0, 2, 0, 1, 2, 0, 3] :
      List Nat).drop 10) = 1 ∧
    ([0xFD, 0x46, 0x08, 0, 0, 0, 1, 0x10, 0, 2, 0, 1, 2, 0, 3] :
      List Nat).getD 12 0 = 2 ∧
    be16 (([0xFD, 0x46, 0x08, 0, 0, 0, 1, 0x10, 0, 2, 0, 1, 2, 0, 3] :
      List Nat).drop 13) = 3 ∧
    write_registers_result (some (send_command [1])) = true := by
  have h := write_command_layout 1 0x10 2 [3]
  have hw := h.2.1 [0xFD, 0x46, 0x08, 0, 0, 0, 1, 0x10, 0, 2, 0, 1, 2, 0, 3]
    (by decide)
  refine ⟨(write_command_layout 1 0x10 2 (List.replicate 128 0)).1 (by decide),
    by simpa using hw.2.2.2.2.2.1, by simpa using hw.2.2.2.2.2.2.1, ?_, ?_⟩
  · have h13 := hw.2.2.2.2.2.2.2 0 (by decide)
    simpa using h13
  · rw [(h.2.2 (some (send_command [1]))).2
      ⟨send_command [1], rfl, by decide⟩]

/-- The client's `read_registers` response handling: no 0xFF stripping; the
read fails if `check_crc` fails or the buffer is shorter than `9 + 2*count`,
and otherwise returns the value bytes `response[9:9+2*count]`. -/
def parse_read (resp : List Nat) (count : Nat) : Option (List Nat) :=
  if check_crc resp = false ∨ resp.length < 9 + 2 * count then none
  else some ((resp.drop 9).take (2 * count))

/-- The events script's `request_events` response handling: strip leading 0xFF
bytes, fail on an invalid CRC, else return the stripped response buffer. -/
def request_events_result (resp : List Nat) : Option (List Nat) :=
  if check_crc (stripFF resp) = false then none else some (stripFF resp)

/-- The config script's `parse_response`: strip leading 0xFF bytes, fail if
fewer than four bytes remain, else return the slice of `length` bytes
starting at offset 4, where `length` is the byte at offset 3. The CRC is
never examined on this path. -/
def parse_response (resp : List Nat) : Option (List Nat) :=
  if (stripFF resp).length < 4 then none
  else some (((stripFF resp).drop 4).take ((stripFF resp).getD 3 0))

/-- Stripping absorbs any run of leading 0xFF bytes. -/
theorem stripFF_replicate_append (n : Nat) (l : List Nat) :
    stripFF (List.replicate n 0xFF ++ l) = stripFF l := by
  induction n with
  | zero => simp
  | succ m ih => simpa [List.replicate_succ, stripFF] using ih

set_option maxRecDepth 4000 in
/-- C7 counterexample: the register-read response path performs no 0xFF
stripping — a valid read response parses to its value bytes, but the same
response preceded by a single 0xFF idle byte fails its CRC check. -/
theorem parse_read_no_stripping :
    parse_read (send_command [10, 70, 8, 0, 0, 0, 5, 3, 2, 18, 52]) 1 =
      some [18, 52] ∧
    parse_read (255 :: send_command [10, 70, 8, 0, 0, 0, 5, 3, 2, 18, 52]) 1 =
      none := by
  exact ⟨by decide, by decide⟩

/-- C7 (amended): the scan, event-configuration and event-poll response paths
strip leading 0xFF idle bytes before any length or CRC check, so any run of
leading 0xFF bytes leaves their result unchanged; the register read path
(and write path) performs no stripping. -/
theorem response_paths_strip_invariance (n : Nat) (f : List Nat)
    (scanCmd : Nat) (rest : List (List Nat)) :
    request_events_result (List.replicate n 0xFF ++ f) =
      request_events_result f ∧
    parse_response (List.replicate n 0xFF ++ f) = parse_response f ∧
    (f ≠ [] →
      scanLoop scanCmd ((List.replicate n 0xFF ++ f) :: rest) =
        scanLoop scanCmd (f :: rest)) := by
  refine ⟨?_, ?_, ?_⟩
  · simp only [request_events_result, stripFF_replicate_append]
  · simp only [parse_response, stripFF_replicate_append]
  · intro hne
    have hne2 : List.replicate n 0xFF ++ f ≠ [] := by
      simp [hne]
    simp only [scanLoop, if_neg hne2, if_neg hne, stripFF_replicate_append]

/-- Concrete instance of the stripping invariance with one leading 0xFF. -/
theorem response_paths_strip_invariance_witness :
    request_events_result (List.replicate 1 0xFF ++ [1, 2, 5]) =
      request_events_result [1, 2, 5] ∧
    parse_response (List.replicate 1 0xFF ++ [1, 2, 5]) =
      parse_response [1, 2, 5] ∧
    scanLoop 70 ((List.replicate 1 0xFF ++ [1, 2, 5]) :: []) =
      scanLoop 70 ([1, 2, 5] :: []) := by
  have h := response_paths_strip_invariance 1 [1, 2, 5] 70 []
  exact ⟨h.1, h.2.1, h.2.2 (by decide)⟩

/-- Configured register range, the parse of one colon-delimited
`type:addr:count:priority` group of the configuration string. -/
structure RangeCfg where
  reg_type : String
  address : Nat
  count : Nat
  priority : Nat

/-- ASCII lower-casing of one character, as `str.lower()` acts on the basic
latin letters of the register-type keywords. -/
def lowerChar (c : Char) : Char :=
  if 65 ≤ c.toNat ∧ c.toNat ≤ 90 then Char.ofNat (c.toNat + 32) else c

/-- ASCII lower-casing of a string, modelling `reg_type.lower()` on the
keyword alphabet. -/
def lowerStr (s : String) : String := ⟨s.data.map lowerChar⟩

/-- The dictionary lookup `{"coil": 0x01, "discrete": 0x02, "holding": 0x03,
"input": 0x04}.get(reg_type.lower())` inside `formulate_command`. -/
def regTypeByte (s : String) : Option Nat :=
  if lowerStr s = "coil" then some 1
  else if lowerStr s = "discrete" then some 2
  else if lowerStr s = "holding" then some 3
  else if lowerStr s = "input" then some 4
  else none

/-- Build-time failures of `formulate_command`: the explicit `ValueError` for
an unknown register type, and the `struct.error` raised by
`struct.pack('>H', address)` when the address does not fit 16 bits. -/
inductive CfgError where
  | unknownRegisterType (name : String) : CfgError
  | addressOutOfRange : CfgError
  deriving DecidableEq

/-- Per-range data bytes accumulated by `formulate_command`'s loop: type
byte, big-endian u16 address, count byte, then `count` copies of the
priority byte. -/
def buildData : List RangeCfg → Except CfgError (List Nat)
  | [] => .ok []
  | c :: rest =>
    match regTypeByte c.reg_type with
    | none => .error (.unknownRegisterType c.reg_type)
    | some t =>
      if c.address < 65536 then
        match buildData rest with
        | .error e => .error e
        | .ok d =>
          .ok ((t :: (be16e c.address ++
            (c.count :: List.replicate c.count c.priority))) ++ d)
      else .error .addressOutOfRange

/-- The config script's `formulate_command`: header `[slave_id, 0x46, 0x18]`,
then the total data length, then the accumulated per-range data. -/
def formulate_command (slave_id : Nat) (cfgs : List RangeCfg) :
    Except CfgError (List Nat) :=
  match buildData cfgs with
  | .error e => .error e
  | .ok data => .ok ([slave_id, 0x46, 0x18] ++ [data.length] ++ data)

/-- Per-range byte group as described by the claim: type byte, big-endian u16
start address, u8 count, then `count` repetitions of the priority byte. -/
def claimRangeBytes (c : RangeCfg) : List Nat :=
  (regTypeByte c.reg_type).getD 0 :: c.address / 256 :: c.address % 256 ::
    c.count :: List.replicate c.count c.priority

/-- Successful accumulation equals the flattened per-range byte groups. -/
theorem buildData_ok : ∀ (cfgs : List RangeCfg),
    (∀ c ∈ cfgs, c.address < 65536) →
    (∀ c ∈ cfgs, (regTypeByte c.reg_type).isSome) →
    buildData cfgs = .ok (cfgs.map claimRangeBytes).flatten
  | [], _, _ => rfl
  | c :: rest, haddr, hknown => by
    have hrec := buildData_ok rest
      (fun x hx => haddr x (List.mem_cons_of_mem _ hx))
      (fun x hx => hknown x (List.mem_cons_of_mem _ hx))
    obtain ⟨t, ht⟩ := Option.isSome_iff_exists.mp
      (hknown c (List.mem_cons_self _ _))
    simp only [buildData, ht, if_pos (haddr c (List.mem_cons_self _ _)), hrec,
      List.map_cons, List.flatten_cons, claimRangeBytes, be16e, ht,
      Option.getD_some, List.cons_append, List.nil_append]

/-- An unknown register type in an in-range configuration makes the
accumulation fail with `unknownRegisterType`. -/
theorem buildData_unknown : ∀ (cfgs : List RangeCfg),
    (∀ c ∈ cfgs, c.address < 65536) →
    (∃ c ∈ cfgs, regTypeByte c.reg_type = none) →
    ∃ name, buildData cfgs = .error (.unknownRegisterType name)
  | [], _, hbad => by simp at hbad
  | c :: rest, haddr, hbad => by
    cases hrt : regTypeByte c.reg_type with
    | none =>
      refine ⟨c.reg_type, ?_⟩
      simp only [buildData, hrt]
    | some t =>
      have hbadrest : ∃ x ∈ rest, regTypeByte x.reg_type = none := by
        obtain ⟨x, hx, hxnone⟩ := hbad
        rcases List.mem_cons.mp hx with rfl | hxr
        · rw [hrt] at hxnone; exact Option.noConfusion hxnone
        · exact ⟨x, hxr, hxnone⟩
      obtain ⟨name, hname⟩ := buildData_unknown rest
        (fun x hx => haddr x (List.mem_cons_of_mem _ hx)) hbadrest
      refine ⟨name, ?_⟩
      simp only [buildData, hrt, if_pos (haddr c (List.mem_cons_self _ _)),
        hname]

/-- Each per-range byte group has `4 + count` bytes. -/
theorem claimRangeBytes_length (c : RangeCfg) :
    (claimRangeBytes c).length = 4 + c.count := by
  simp [claimRangeBytes]
  omega

/-- C8: for every slave id and list of well-addressed configured ranges, the
command is `[slave_id, 0x46, 0x18, total_data_length]` followed, for each
range in order, by the type byte (coil=1, discrete=2, holding=3, input=4,
matched after lower-casing), the big-endian u16 start address, the count
byte, and `count` repetitions of the priority byte; and any range whose type
name is unknown makes the build fail with an unknown-register-type error
rather than being skipped. -/
theorem formulate_command_layout (slave_id : Nat) (cfgs : List RangeCfg)
    (haddr : ∀ c ∈ cfgs, c.address < 65536) :
    ((∃ c ∈ cfgs, regTypeByte c.reg_type = none) →
      ∃ name, formulate_command slave_id cfgs =
        .error (.unknownRegisterType name)) ∧
    ((∀ c ∈ cfgs, (regTypeByte c.reg_type).isSome) →
      formulate_command slave_id cfgs =
        .ok ([slave_id, 0x46, 0x18, (cfgs.map fun c => 4 + c.count).sum] ++
          (cfgs.map claimRangeBytes).flatten)) := by
  constructor
  · intro hbad
    obtain ⟨name, hname⟩ := buildData_unknown cfgs haddr hbad
    exact ⟨name, by simp only [formulate_command, hname]⟩
  · intro hknown
    have hok := buildData_ok cfgs haddr hknown
    have hlen : (cfgs.map claimRangeBytes).flatten.length =
        (cfgs.map fun c => 4 + c.count).sum := by
      rw [List.length_flatten, List.map_map]
      congr 1
      exact List.map_congr_left fun c _ => claimRangeBytes_length c
    simp only [formulate_command, hok, hlen, List.cons_append,
      List.nil_append]

/-- Concrete instance of the configuration build: one well-formed range built
(case-insensitive type name) and one unknown type rejected. -/
theorem formulate_command_layout_witness :
    formulate_command 9 [⟨"Coil", 5, 2, 7⟩] =
      .ok [9, 0x46, 0x18, 6, 1, 0, 5, 2, 7, 7] ∧
    (∃ name, formulate_command 9 [⟨"bogus", 1, 1, 1⟩] =
      .error (.unknownRegisterType name)) := by
  constructor
  · have h := (formulate_command_layout 9 [⟨"Coil", 5, 2, 7⟩]
      (by decide)).2 (by decide)
    rw [h]
    exact congrArg Except.ok (by decide)
  · exact (formulate_command_layout 9 [⟨"bogus", 1, 1, 1⟩] (by decide)).1
      ⟨⟨"bogus", 1, 1, 1⟩, by simp, by decide⟩

/-- A successful accumulation has `sum (4 + count)` data bytes. -/
theorem buildData_ok_length : ∀ (cfgs : List RangeCfg) (data : List Nat),
    buildData cfgs = .ok data →
    data.length = (cfgs.map fun c => 4 + c.count).sum
  | [], data, h => by
    injection h with h2
    simp [← h2]
  | c :: rest, data, h => by
    rw [buildData] at h
    cases hrt : regTypeByte c.reg_type with
    | none => rw [hrt] at h; exact Except.noConfusion h
    | some t =>
      rw [hrt] at h
      dsimp only at h
      by_cases haddr : c.address < 65536
      · rw [if_pos haddr] at h
        cases hbd : buildData rest with
        | error e => rw [hbd] at h; exact Except.noConfusion h
        | ok d =>
          rw [hbd] at h
          dsimp only at h
          injection h with h2
          have hrec := buildData_ok_length rest d hbd
          simp only [← h2, List.length_append, List.length_cons,
            List.map_cons, List.sum_cons, hrec, be16e]
          simp [List.length_replicate]
          omega
      · rw [if_neg haddr] at h; exact Except.noConfusion h

/-- C9: the data-length byte at index 3 of any command produced by
`formulate_command` equals the exact number of data bytes following it,
namely the sum over all ranges of `4 + count`. -/
theorem formulate_command_datalen (slave_id : Nat) (cfgs : List RangeCfg)
    (l : List Nat) (h : formulate_command slave_id cfgs = .ok l) :
    l.getD 3 0 = l.length - 4 ∧
    l.length - 4 = (cfgs.map fun c => 4 + c.count).sum := by
  rw [formulate_command] at h
  cases hbd : buildData cfgs with
  | error e => rw [hbd] at h; exact Except.noConfusion h
  | ok data =>
    rw [hbd] at h
    dsimp only at h
    injection h with h2
    have hsum := buildData_ok_length cfgs data hbd
    constructor
    · simp [← h2]
    · simp only [← h2, List.length_append, List.length_cons,
        List.length_nil, hsum]
      omega

/-- Concrete instance of the data-length invariant for one holding range of
three registers. -/
theorem formulate_command_datalen_witness :
    ([9, 0x46, 0x18, 7, 3, 0, 60, 3, 2, 2, 2] : List Nat).getD 3 0 =
      ([9, 0x46, 0x18, 7, 3, 0, 60, 3, 2, 2, 2] : List Nat).length - 4 ∧
    ([9, 0x46, 0x18, 7, 3, 0, 60, 3, 2, 2, 2] : List Nat).length - 4 =
      (([⟨"holding", 60, 3, 2⟩] : List RangeCfg).map fun c => 4 + c.count).sum :=
  formulate_command_datalen 9 [⟨"holding", 60, 3, 2⟩] _ rfl

/-- C10: the config script's response parse validates no checksum — every
buffer whose 0xFF-stripped remainder has at least four bytes parses
successfully to the `mask_length`-byte slice starting at offset 4 (truncated
to what is available, CRC bytes included if the declared length reaches
them), and the parse fails exactly when fewer than four stripped bytes
remain. -/
theorem parse_response_no_crc_check (r : List Nat) :
    (parse_response r = none ↔ (stripFF r).length < 4) ∧
    (4 ≤ (stripFF r).length →
      parse_response r =
        some (((stripFF r).drop 4).take ((stripFF r).getD 3 0))) := by
  constructor
  · by_cases h4 : (stripFF r).length < 4
    · simp [parse_response, h4]
    · simp [parse_response, h4]
  · intro h4
    simp [parse_response, Nat.not_lt.mpr h4]

/-- Concrete instance of the CRC-free response parse: a buffer whose trailing
CRC is not even present parses, and the returned slice includes what would be
the checksum bytes. -/
theorem parse_response_no_crc_check_witness :
    parse_response [255, 1, 70, 24, 3, 9, 8, 7] = some [9, 8, 7] := by
  have h := (parse_response_no_crc_check [255, 1, 70, 24, 3, 9, 8, 7]).2
    (by decide)
  exact h.trans (by decide)
